import Mathlib

/-!
# Verification of `toml-to-yaml` (parser + generator)

Shallow embedding of the repository's source:

* `src/ir.rs`        → the `Value`/`Pair`/`Table`/`Document` inductive types below
  (the `Array`/`InlineTable` newtype wrappers around `Vec` are inlined as plain
  lists; `Identifier(pub String)` becomes a one-field structure over `List Char`).
* `src/parser.rs`    → the `parse*` definitions, built over an embedding of the
  `nom` 7 combinators the source uses.  Input and remainders are `List Char`.
  A recoverable `nom` `Err::Error` is modelled as `.soft`, a hard `Err::Failure`
  (produced by `cut`, which `nom`'s float grammar uses after an exponent marker)
  as `.hard`; both carry the unconsumed input at the failure point, as
  `nom::error::Error.input` does.  The recursive grammar is given a `Nat` fuel
  argument so every definition is structural and executable; the top level
  wrappers pass `8 * length + 16` fuel, which is ample: every chain of four
  recursive entries consumes at least one character of input.
* `src/generator.rs` → the `render*` definitions (the `Display` impls, the
  `indent_inbetween` / `indent_all` helpers and `split_inclusive`).

`f64` is modelled by `Rat`: the float grammar's exact decimal value, and the
`{:?}` (shortest round-trip) formatting by the exact decimal expansion with a
`.0` fraction for integral values — faithful on every decimal-exact float the
claims touch.  `i64` is `Int` with the `str::parse::<i64>` overflow bound.
-/

set_option maxRecDepth 10000

namespace TomlYaml

/-- Parser input / remainder: the suffix of the source text, as characters. -/
abbrev Str := List Char

/-- A `nom` error: `soft` is the recoverable `Err::Error`, `hard` the
unrecoverable `Err::Failure` produced by `cut`.  Both carry the unconsumed
input at the point of failure (the `input` field of `nom::error::Error`). -/
inductive PError where
  | soft (rest : Str)
  | hard (rest : Str)
  deriving DecidableEq, Repr

/-- Result of running a parser: value plus unconsumed rest, or an error. -/
inductive PResult (α : Type) where
  | ok (val : α) (rest : Str)
  | err (e : PError)
  deriving Repr, DecidableEq

/-- Embedding of `nom`'s `IResult<&str, T>`. -/
abbrev Parser (α : Type) : Type := Str → PResult α

/-- The unconsumed rest recorded in a parse outcome (ok rest or error input). -/
def restOf : PResult α → Str
  | .ok _ r => r
  | .err (.soft r) => r
  | .err (.hard r) => r

/-! ## Embedded `nom` combinators (from the `use nom::...` list in parser.rs) -/

/-- Embedding of `Parser::map`. -/
def pmap (p : Parser α) (g : α → β) : Parser β := fun s =>
  match p s with
  | .ok a r => .ok (g a) r
  | .err e => .err e

/-- Embedding of `nom::sequence::pair` / `Parser::and`: run `p` then `q` on the rest. -/
def pand (p : Parser α) (q : Parser β) : Parser (α × β) := fun s =>
  match p s with
  | .ok a r =>
    match q r with
    | .ok b r2 => .ok (a, b) r2
    | .err e => .err e
  | .err e => .err e

/-- Embedding of `nom::branch::alt` on two branches: the second runs only on a soft error;
the error of the last branch is the one reported (`Error::or` keeps `other`). -/
def alt2 (p q : Parser α) : Parser α := fun s =>
  match p s with
  | .ok a r => .ok a r
  | .err (.soft _) => q s
  | .err e => .err e

/-- Embedding of `nom::combinator::opt`: soft failure yields `none` and consumes nothing. -/
def optP (p : Parser α) : Parser (Option α) := fun s =>
  match p s with
  | .ok a r => .ok (some a) r
  | .err (.soft _) => .ok none s
  | .err e => .err e

/-- Embedding of `nom::combinator::not`: succeed (consuming nothing) iff `p` soft-fails. -/
def notP (p : Parser α) : Parser Unit := fun s =>
  match p s with
  | .ok _ _ => .err (.soft s)
  | .err (.soft _) => .ok () s
  | .err e => .err e

/-- Embedding of `nom::combinator::map_res`: a `none` conversion is a soft error reported at
the combinator's own input position. -/
def mapRes (p : Parser α) (g : α → Option β) : Parser β := fun s =>
  match p s with
  | .ok a r =>
    match g a with
    | some b => .ok b r
    | none => .err (.soft s)
  | .err e => .err e

/-- Embedding of `nom::sequence::delimited`. -/
def delimitedP (l : Parser α) (mid : Parser β) (r : Parser γ) : Parser β :=
  pmap (pand (pand l mid) r) (fun x => x.1.2)

/-- Embedding of `nom::sequence::separated_pair`. -/
def sepPairP (p : Parser α) (sep : Parser σ) (q : Parser β) : Parser (α × β) :=
  pmap (pand (pand p sep) q) (fun x => (x.1.1, x.2))

/-- Three-component `nom::sequence::tuple`. -/
def tuple3 (p : Parser α) (q : Parser β) (r : Parser γ) : Parser (α × β × γ) :=
  pmap (pand p (pand q r)) id

/-! ## Embedded `nom` character-level parsers -/

/-- The characters `nom::character::complete::multispace0` accepts. -/
def isMultiSpace (c : Char) : Bool := c = ' ' || c = '\t' || c = '\r' || c = '\n'

/-- The characters `nom::character::complete::space0` accepts. -/
def isSpaceTab (c : Char) : Bool := c = ' ' || c = '\t'

/-- Embedding of `multispace0`: consume any run of spaces, tabs, carriage returns, newlines. -/
def multispace0 : Parser Str := fun s =>
  .ok (s.takeWhile isMultiSpace) (s.dropWhile isMultiSpace)

/-- Embedding of `space0`: consume any run of spaces and tabs. -/
def space0 : Parser Str := fun s =>
  .ok (s.takeWhile isSpaceTab) (s.dropWhile isSpaceTab)

/-- Embedding of `nom::character::complete::char`. -/
def charP (c : Char) : Parser Char := fun s =>
  match s with
  | x :: r => if x = c then .ok c r else .err (.soft s)
  | [] => .err (.soft s)

/-- Embedding of `nom::bytes::complete::tag`. -/
def tagP (t : Str) : Parser Str := fun s =>
  if t.isPrefixOf s then .ok t (s.drop t.length) else .err (.soft s)

/-- Embedding of `nom::character::complete::digit1`: the longest nonempty ASCII-digit run. -/
def digit1 : Parser Str := fun s =>
  if (s.takeWhile Char.isDigit).isEmpty then .err (.soft s)
  else .ok (s.takeWhile Char.isDigit) (s.dropWhile Char.isDigit)

/-- Embedding of `nom::character::complete::alphanumeric1`. -/
def alphanumeric1 : Parser Str := fun s =>
  if (s.takeWhile Char.isAlphanum).isEmpty then .err (.soft s)
  else .ok (s.takeWhile Char.isAlphanum) (s.dropWhile Char.isAlphanum)

/-- Embedding of `nom::bytes::complete::take_till`: consume until the predicate holds. -/
def takeTill (pred : Char → Bool) : Parser Str := fun s =>
  .ok (s.takeWhile (fun c => !pred c)) (s.dropWhile (fun c => !pred c))

/-- Embedding of `nom::combinator::eof`. -/
def eofP : Parser Unit := fun s =>
  if s.isEmpty then .ok () s else .err (.soft s)

/-- Embedding of `nom::character::complete::newline`. -/
def newlineP : Parser Char := charP '\n'

/-! ## Repetition combinators (`separated_list0`, `fold_many0`, `fold_many1`)

Each loop takes fuel and fails softly when it runs out; the source's loops are
unbounded, but every iteration consumes input (enforced by `nom`'s
infinite-loop check, kept below), so fuel at least the input length is always
enough. -/

/-- Loop of `nom::multi::separated_list0` after the first element: try the
separator (stop on soft error), enforce that it consumed input (`nom`'s
infinite-loop check), try the element (stop on soft error, backtracking to
before the separator), and continue. -/
def sepList0Loop (sep : Parser σ) (p : Parser α) : Nat → Str → PResult (List α)
  | 0, s => .err (.soft s)
  | f + 1, s =>
    match sep s with
    | .err (.soft _) => .ok [] s
    | .err e => .err e
    | .ok _ s1 =>
      if s1.length = s.length then .err (.soft s1)
      else
        match p s1 with
        | .err (.soft _) => .ok [] s
        | .err e => .err e
        | .ok a s2 =>
          match sepList0Loop sep p f s2 with
          | .ok as r => .ok (a :: as) r
          | .err e => .err e

/-- Embedding of `nom::multi::separated_list0`. -/
def sepList0 (fuel : Nat) (sep : Parser σ) (p : Parser α) : Parser (List α) := fun s =>
  match p s with
  | .err (.soft _) => .ok [] s
  | .err e => .err e
  | .ok a s1 =>
    match sepList0Loop sep p fuel s1 with
    | .ok as r => .ok (a :: as) r
    | .err e => .err e

/-- Loop of `nom::multi::fold_many0` collecting into a list (the source folds
`Vec::push`): stop on soft error, enforce consumption, continue. -/
def many0Loop (p : Parser α) : Nat → Str → PResult (List α)
  | 0, s => .err (.soft s)
  | f + 1, s =>
    match p s with
    | .err (.soft _) => .ok [] s
    | .err e => .err e
    | .ok a r =>
      if r.length = s.length then .err (.soft r)
      else
        match many0Loop p f r with
        | .ok as r2 => .ok (a :: as) r2
        | .err e => .err e

/-- Embedding of `fold_many0(p, Vec::new, push)` as a parser returning the list. -/
def many0P (fuel : Nat) (p : Parser α) : Parser (List α) := fun s =>
  many0Loop p fuel s

/-- Embedding of `fold_many1(p, String::new, concat)`: at least one match, concatenating the
consumed fragments (used by `parse_identifier`). -/
def foldMany1Str (fuel : Nat) (p : Parser Str) : Parser Str := fun s =>
  match p s with
  | .err (.soft _) => .err (.soft s)
  | .err e => .err e
  | .ok a r =>
    match many0Loop p fuel r with
    | .ok as r2 => .ok (a ++ as.flatten) r2
    | .err e => .err e

/-! ## The IR (`src/ir.rs`) -/

/-- Embedding of `pub struct Identifier(pub String)`. -/
structure Identifier where
  val : Str
  deriving DecidableEq, Repr

mutual
/-- Embedding of `pub enum Value` from ir.rs.  `Array(pub Vec<Value>)` and
`InlineTable(pub Vec<Pair>)` are newtype wrappers around vectors; they are
inlined here as the `List` payloads of the corresponding constructors. -/
inductive Value where
  | integer (v : Int)
  | float (v : Rat)
  | boolean (v : Bool)
  | string (v : Str)
  | array (v : List Value)
  | inlineTable (v : List Pair)

/-- Embedding of `pub struct Pair { key: Identifier, value: Value }`. -/
inductive Pair where
  | mk (key : Identifier) (value : Value)
end

/-- The key of a pair. -/
def Pair.key : Pair → Identifier
  | .mk k _ => k

/-- The value of a pair. -/
def Pair.value : Pair → Value
  | .mk _ v => v

/-- Embedding of `pub struct Table { header: Identifier, body: InlineTable }` (the body's
`InlineTable` wrapper inlined as a list of pairs). -/
structure Table where
  header : Identifier
  body : List Pair

/-- Embedding of `pub struct Document(pub Vec<Table>)`. -/
structure Document where
  tables : List Table

/-! ## The parser (`src/parser.rs`) -/

/-- Embedding of `fn parse_boolean`: `alt((tag("true"), tag("false")))` mapped to `bool`. -/
def parseBoolean : Parser Bool :=
  pmap (alt2 (tagP "true".toList) (tagP "false".toList)) (fun t => t = "true".toList)

/-- Embedding of `i64::MAX`, the bound of `str::parse::<i64>` on an unsigned digit run. -/
def i64MaxNat : Nat := 9223372036854775807

/-- Numeric value of an ASCII digit run. -/
def digitsToNat (ds : Str) : Nat := ds.foldl (fun a c => 10 * a + (c.toNat - 48)) 0

/-- Embedding of `fn parse_integer`: negative lookahead `not(tuple((digit1, char('.'),
digit1)))`, then `map_res(digit1, str::parse::<i64>)` (which fails on
overflow). -/
def parseInteger : Parser Int :=
  pmap
    (pand (notP (tuple3 digit1 (charP '.') digit1))
      (mapRes digit1 (fun ds =>
        if digitsToNat ds ≤ i64MaxNat then some (Int.ofNat (digitsToNat ds)) else none)))
    Prod.snd

/-- Embedding of `nom`'s `sign` helper: strip an optional leading `+`/`-`,
returning whether the value is negated and the rest. -/
def signSplit (s : Str) : Bool × Str :=
  match s with
  | '-' :: r => (true, r)
  | '+' :: r => (false, r)
  | _ => (false, s)

/-- Embedding of `nom::character::complete::i32` (used for the float exponent): optional
sign, then `digit1`, with an `i32` overflow check; a soft error reports the
combinator's own input. -/
def parseExpI32 : Parser Int := fun s =>
  let (neg, s1) := signSplit s
  match digit1 s1 with
  | .err _ => .err (.soft s)
  | .ok ds r =>
    let n := digitsToNat ds
    if neg then
      if n ≤ 2147483648 then .ok (-(Int.ofNat n)) r else .err (.soft s)
    else
      if n ≤ 2147483647 then .ok (Int.ofNat n) r else .err (.soft s)

/-- The exact rational `± (ip.fp) · 10^e` of a float literal's parts, computed
as one quotient of integers (so the kernel can evaluate it). -/
def floatVal (neg : Bool) (ip fp : Str) (e : Int) : Rat :=
  let mant : Nat := digitsToNat ip * 10 ^ fp.length + digitsToNat fp
  let num : Int := if neg then -(Int.ofNat mant) else Int.ofNat mant
  if 0 ≤ e then Rat.divInt (num * Int.ofNat (10 ^ e.toNat)) (Int.ofNat (10 ^ fp.length))
  else Rat.divInt num (Int.ofNat (10 ^ fp.length * 10 ^ (-e).toNat))

/-- Embedding of `fn parse_float` = `nom::number::complete::double`: optional sign, digit
run, optional `.` and fraction digit run (at least one digit among the two
runs), optional `e`/`E` exponent whose digits are parsed by `cut(i32)` — so a
missing or overflowing exponent is a hard failure.  The numeric value is
modelled exactly (as a rational) instead of rounding to the nearest `f64`. -/
def fracSplit (s2 : Str) : Str × Str :=
  match s2 with
  | '.' :: s3 => (s3.takeWhile Char.isDigit, s3.dropWhile Char.isDigit)
  | _ => (([] : Str), s2)

def parseFloat : Parser Rat := fun s =>
  let (neg, s1) := signSplit s
  let ip := s1.takeWhile Char.isDigit
  let s2 := s1.dropWhile Char.isDigit
  let (fp, s4) := fracSplit s2
  if ip.isEmpty ∧ fp.isEmpty then .err (.soft s)
  else
    match s4 with
    | 'e' :: s5 =>
      match parseExpI32 s5 with
      | .ok e r => .ok (floatVal neg ip fp e) r
      | .err (.soft r) => .err (.hard r)
      | .err e => .err e
    | 'E' :: s5 =>
      match parseExpI32 s5 with
      | .ok e r => .ok (floatVal neg ip fp e) r
      | .err (.soft r) => .err (.hard r)
      | .err e => .err e
    | _ => .ok (floatVal neg ip fp 0) s4

/-- Embedding of `fn parse_string`: `delimited(char('"'), take_till(|c| c == '"'), char('"'))`. -/
def parseString : Parser Str :=
  delimitedP (charP '"') (takeTill (fun c => c = '"')) (charP '"')

/-- Embedding of `fn parse_identifier`: `fold_many1(alt((alphanumeric1, tag("-"), tag("_"))),
String::new, concat)`. -/
def parseIdentifier (fuel : Nat) : Parser Identifier :=
  pmap (foldMany1Str fuel (alt2 alphanumeric1 (alt2 (tagP "-".toList) (tagP "_".toList))))
    Identifier.mk

/-- The `{` character, written via its code point. -/
def lbrace : Char := Char.ofNat 123

/-- The `}` character, written via its code point. -/
def rbrace : Char := Char.ofNat 125

/-- The element separator of arrays and inline tables:
`tuple((multispace0, char(','), multispace0))`. -/
def sepComma : Parser (Str × Char × Str) := tuple3 multispace0 (charP ',') multispace0

mutual
/-- Embedding of `fn parse_value`: `alt` over boolean, integer, float, string, array,
inline table — in that order. -/
def parseValue : Nat → Parser Value
  | 0 => fun s => .err (.soft s)
  | f + 1 =>
    alt2 (pmap parseBoolean Value.boolean)
      (alt2 (pmap parseInteger Value.integer)
        (alt2 (pmap parseFloat Value.float)
          (alt2 (pmap parseString Value.string)
            (alt2 (pmap (parseArray f) Value.array)
              (pmap (parseInlineTable f) Value.inlineTable)))))

/-- Embedding of `fn parse_array`: `delimited(pair(char('['), multispace0),
separated_list0(sep, parse_value), pair(multispace0, char(']')))`. -/
def parseArray : Nat → Parser (List Value)
  | 0 => fun s => .err (.soft s)
  | f + 1 =>
    delimitedP (pand (charP '[') multispace0)
      (sepList0 f sepComma (parseValue f))
      (pand multispace0 (charP ']'))

/-- Embedding of `fn parse_inline_table`: like `parse_array` with braces and pairs. -/
def parseInlineTable : Nat → Parser (List Pair)
  | 0 => fun s => .err (.soft s)
  | f + 1 =>
    delimitedP (pand (charP lbrace) multispace0)
      (sepList0 f sepComma (parsePair f))
      (pand multispace0 (charP rbrace))

/-- Embedding of `fn parse_pair`: `separated_pair(parse_identifier, tuple((space0, char('='),
space0)), parse_value)`. -/
def parsePair : Nat → Parser Pair
  | 0 => fun s => .err (.soft s)
  | f + 1 =>
    pmap (sepPairP (parseIdentifier f) (tuple3 space0 (charP '=') space0) (parseValue f))
      (fun kv => Pair.mk kv.1 kv.2)
end

/-- Embedding of `fn parse_table_body`: `separated_list0(newline, tuple((multispace0,
parse_pair, space0)).map(middle))`. -/
def parseTableBody (fuel : Nat) : Parser (List Pair) :=
  sepList0 fuel newlineP (pmap (tuple3 multispace0 (parsePair fuel) space0) (fun x => x.2.1))

/-- The header rule of `fn parse_table`: `tuple((multispace0, char('['), space0,
parse_identifier, space0, char(']'), space0, newline))` keeping the identifier. -/
def parseTableHeader (fuel : Nat) : Parser Identifier :=
  pmap
    (pand (pand (pand multispace0 (charP '[')) (pand space0 (parseIdentifier fuel)))
      (pand (pand space0 (charP ']')) (pand space0 newlineP)))
    (fun x => x.1.2.2)

/-- Embedding of `fn parse_table`: header then body. -/
def parseTable (fuel : Nat) : Parser Table :=
  pmap (pand (parseTableHeader fuel) (parseTableBody fuel))
    (fun x => Table.mk x.1 x.2)

/-- Embedding of `fn parse_document`: `tuple((opt(parse_table_body), fold_many0(parse_table),
multispace0, eof))`; a present leading body becomes a synthetic table with the
empty identifier, inserted first. -/
def parseDocument (fuel : Nat) : Parser Document :=
  pmap
    (pand (pand (optP (parseTableBody fuel)) (many0P fuel (parseTable fuel)))
      (pand multispace0 eofP))
    (fun x =>
      match x.1.1 with
      | some body => Document.mk (Table.mk (Identifier.mk []) body :: x.1.2)
      | none => Document.mk x.1.2)

/-- Default fuel for the wrappers below: ample, since any four consecutive
recursive entries of the grammar consume at least one input character. -/
def fuelFor (s : Str) : Nat := 8 * s.length + 16

/-- Embedding of `pub fn parse`: run the document grammar and `.finish()`, keeping the
document on success and the `nom` error's unconsumed input on failure. -/
def parse (s : Str) : Except Str Document :=
  match parseDocument (fuelFor s) s with
  | .ok d _ => .ok d
  | .err (.soft r) => .error r
  | .err (.hard r) => .error r

/-- Embedding of `parse_value` at the default fuel. -/
def runValue (s : Str) : PResult Value := parseValue (fuelFor s) s

/-- Embedding of `parse_array` at the default fuel. -/
def runArray (s : Str) : PResult (List Value) := parseArray (fuelFor s) s

/-- Embedding of `parse_table_body` at the default fuel. -/
def runTableBody (s : Str) : PResult (List Pair) := parseTableBody (fuelFor s) s

/-! ## The generator (`src/generator.rs`) -/

/-- Embedding of `const INDENTATION: &str = "  "` — two spaces. -/
def INDENTATION : Str := [' ', ' ']

/-- Embedding of `str::split_inclusive("\n")`: split after every newline, keeping the
newline at the end of each piece; the empty string yields no pieces. -/
def splitInclusive : Str → List Str
  | [] => []
  | c :: rest =>
    if c = '\n' then ['\n'] :: splitInclusive rest
    else
      match splitInclusive rest with
      | [] => [[c]]
      | l :: ls => (c :: l) :: ls

/-- Embedding of `fn indent_inbetween`: write the first line as is and prefix every later
line with the indentation. -/
def indentInbetween (s : Str) : Str :=
  match splitInclusive s with
  | [] => []
  | l :: ls => l ++ (ls.map (fun line => INDENTATION ++ line)).flatten

/-- Embedding of `fn indent_all`: prefix every line with the indentation. -/
def indentAll (s : Str) : Str :=
  ((splitInclusive s).map (fun line => INDENTATION ++ line)).flatten

/-- Embedding of `i64`'s `Display`: decimal digits with a leading `-` when negative. -/
def intToStr (n : Int) : Str :=
  if n < 0 then '-' :: Nat.toDigits 10 n.natAbs else Nat.toDigits 10 n.toNat

/-- Decimal digits of the fraction `r / den` (with `r < den`), most
significant first, stopping when the remainder reaches zero (fuel-bounded; 30
digits covers every decimal-exact `f64` fraction the program produces). -/
def fracDigits (den : Nat) : Nat → Nat → Str
  | 0, _ => []
  | f + 1, r =>
    if r = 0 then []
    else Char.ofNat (48 + 10 * r / den) :: fracDigits den f (10 * r % den)

/-- Drop the trailing zero characters of a digit string. -/
def trimZeros (ds : Str) : Str := (ds.reverse.dropWhile (fun c => c = '0')).reverse

/-- Render the significant digits of a float mantissa: the first digit, then a
decimal point and the remaining digits when there are any (Rust prints `1e20`,
not `1.e20`). -/
def mantissaOut : Str → Str
  | [] => ['0']
  | [d] => [d]
  | d :: rest => d :: '.' :: rest

/-- Find the first nonzero decimal digit of the fraction `r / den < 1`:
returns its 1-based position `j` (so the value is about `d · 10^(-j)`), the
digit `d`, and the remainder after it.  Fuel-bounded; 400 steps cover every
positive `f64` (the smallest is about `5e-324`). -/
def firstSigDigit (den : Nat) : Nat → Nat → Option (Nat × Nat × Nat)
  | 0, _ => none
  | f + 1, r =>
    let r10 := 10 * r
    if den ≤ r10 then some (1, r10 / den, r10 % den)
    else
      match firstSigDigit den f (r10 % den) with
      | some jd => some (jd.1 + 1, jd.2)
      | none => none

/-- The exponential form Rust's `{:?}` prints for a finite float outside the
positional regime: the significant digits as `d.ddd` (no point when a single
digit), `e`, and the decimal exponent (with `-` when negative, no `+`).
`a / den` is the float's absolute value, nonzero. -/
def expForm (a den : Nat) : Str :=
  if den ≤ a then
    let intDs := Nat.toDigits 10 (a / den)
    let frac := fracDigits den 30 (a % den)
    let sig := if frac.isEmpty then trimZeros intDs else intDs ++ frac
    mantissaOut sig ++ 'e' :: Nat.toDigits 10 (intDs.length - 1)
  else
    match firstSigDigit den 400 a with
    | some (j, d, rem) =>
      mantissaOut (Char.ofNat (48 + d) :: fracDigits den 30 rem) ++
        'e' :: '-' :: Nat.toDigits 10 j
    | none => ['0', 'e', '0']

/-- Embedding of `f64`'s `{:?}` formatting (`float_to_general_debug`), on the
exact-rational model: for zero and for `1e-4 ≤ |x| < 1e16` (the source's
`num == 0.0 || (abs >= 1e-4 && abs < 1e16)` test, expressed on the reduced
numerator and denominator) the positional form — sign, integer part, a decimal
point, and the fraction's digits (`0` when integral); otherwise the
exponential form, which carries an `e` and for an integral mantissa no decimal
point at all.  Faithful for every decimal-exact finite float; the `f64`
overflow-to-infinity and NaN forms lie outside the exact-rational value
model. -/
def formatFloat (q : Rat) : Str :=
  let sign : Str := if q.num < 0 then ['-'] else []
  let a : Nat := q.num.natAbs
  if q.num = 0 ∨ (q.den ≤ 10000 * a ∧ a < 10 ^ 16 * q.den) then
    let frac := fracDigits q.den 30 (a % q.den)
    sign ++ Nat.toDigits 10 (a / q.den) ++ '.' :: (if frac.isEmpty then ['0'] else frac)
  else
    sign ++ expForm a q.den

/-- Embedding of `bool`'s `Display`. -/
def boolToStr (b : Bool) : Str := if b then "true".toList else "false".toList

mutual
/-- Embedding of `impl Display for Value`: scalars by their own `Display` (the float via
`{:?}`), arrays and inline tables by re-indenting their rendering in between
lines. -/
def renderValue : Value → Str
  | .integer v => intToStr v
  | .float v => formatFloat v
  | .boolean v => boolToStr v
  | .string v => v
  | .array v => indentInbetween (renderArrayItems v)
  | .inlineTable v => indentInbetween (renderPairs v)

/-- Embedding of `impl Display for Array`: first element prefixed `- `, later elements each
preceded by a newline and prefixed `- `. -/
def renderArrayItems : List Value → Str
  | [] => []
  | v :: vs => '-' :: ' ' :: renderValue v ++ renderArrayRest vs

/-- The loop of `Array`'s `Display` after the first element. -/
def renderArrayRest : List Value → Str
  | [] => []
  | v :: vs => '\n' :: '-' :: ' ' :: renderValue v ++ renderArrayRest vs

/-- Embedding of `impl Display for InlineTable`: pairs separated by newlines. -/
def renderPairs : List Pair → Str
  | [] => []
  | p :: ps => renderPair p ++ renderPairsRest ps

/-- The loop of `InlineTable`'s `Display` after the first pair. -/
def renderPairsRest : List Pair → Str
  | [] => []
  | p :: ps => '\n' :: renderPair p ++ renderPairsRest ps

/-- Embedding of `impl Display for Pair`: the key, a colon, then a space and the value for
scalars, or a newline plus one indentation and the value for arrays and
inline tables. -/
def renderPair : Pair → Str
  | .mk k v =>
    k.val ++ ':' ::
      (match v with
      | .integer _ | .float _ | .boolean _ | .string _ => ' ' :: renderValue v
      | .array _ | .inlineTable _ => '\n' :: (INDENTATION ++ renderValue v))
end

/-- Embedding of `impl Display for Table`: an empty header renders the body directly; a
non-empty header renders `header:`, a newline, and the body indented wholly. -/
def renderTable (t : Table) : Str :=
  if t.header.val.isEmpty then renderPairs t.body
  else t.header.val ++ ':' :: '\n' :: indentAll (renderPairs t.body)

/-- The loop of `Document`'s `Display` after the first table: each further
table preceded by a blank line (two newlines). -/
def renderDocRest : List Table → Str
  | [] => []
  | t :: ts => '\n' :: '\n' :: renderTable t ++ renderDocRest ts

/-- Embedding of `impl Display for Document`. -/
def renderDocument (d : Document) : Str :=
  match d.tables with
  | [] => []
  | t :: ts => renderTable t ++ renderDocRest ts

/-- Join a list of strings with a separator (used to state the rendering
claims; `joinSep sep [a, b, c] = a ++ sep ++ b ++ sep ++ c`). -/
def joinSep (sep : Str) : List Str → Str
  | [] => []
  | [x] => x
  | x :: xs => x ++ sep ++ joinSep sep xs

mutual
/-- Modelled from the spec: the compact rendering mode (§4.2 "Compact mode").
The repository's `src` contains only the expanded generator, so this policy is
missing from the code and is modelled from the spec's words: arrays render as
`[e1, e2, ...]` (comma-space separated, no trailing comma, `[]` when empty);
scalar formatting and the pair colon rule are shared with the expanded mode;
inline tables keep one `key: value` pair per line. -/
def compactValue : Value → Str
  | .integer v => intToStr v
  | .float v => formatFloat v
  | .boolean v => boolToStr v
  | .string v => v
  | .array v => '[' :: compactItems v ++ [']']
  | .inlineTable v => compactPairsList v

/-- Modelled from the spec: comma-space separated compact array elements. -/
def compactItems : List Value → Str
  | [] => []
  | [v] => compactValue v
  | v :: vs => compactValue v ++ ',' :: ' ' :: compactItems vs

/-- Modelled from the spec: compact inline-table pairs, one per line. -/
def compactPairsList : List Pair → Str
  | [] => []
  | [.mk k v] => k.val ++ ':' :: ' ' :: compactValue v
  | .mk k v :: ps => k.val ++ ':' :: ' ' :: compactValue v ++ '\n' :: compactPairsList ps
end

/-- The shape rejected by `parse_integer`'s negative lookahead: a nonempty
leading digit run immediately followed by a dot and a further digit run. -/
def FloatPrefixShape (s : Str) : Prop :=
  s.takeWhile Char.isDigit ≠ [] ∧
  ∃ t, s.dropWhile Char.isDigit = '.' :: t ∧ t.takeWhile Char.isDigit ≠ []

/-- Suffix soundness of a parser: whatever the outcome, the recorded rest (the
remainder on success, the error's unconsumed input on failure) is a suffix of
the input — parsers only ever consume from the front. -/
def Sound (p : Parser α) : Prop := ∀ s, restOf (p s) <:+ s

/-! ## Helper lemmas -/

theorem renderDocRest_join (a : Str) (ts : List Table) :
    a ++ renderDocRest ts = joinSep ['\n', '\n'] (a :: ts.map renderTable) := by
  induction ts generalizing a with
  | nil => simp [renderDocRest, joinSep]
  | cons t ts ih =>
    have h := ih (renderTable t)
    simp only [renderDocRest, List.map_cons, joinSep, ← h]
    simp [List.append_assoc]

theorem renderArrayRest_join (a : Str) (vs : List Value) :
    a ++ renderArrayRest vs =
      joinSep ['\n'] (a :: vs.map (fun v => '-' :: ' ' :: renderValue v)) := by
  induction vs generalizing a with
  | nil => simp [renderArrayRest, joinSep]
  | cons v vs ih =>
    have h := ih ('-' :: ' ' :: renderValue v)
    simp only [renderArrayRest, List.map_cons, joinSep, ← h]
    simp [List.append_assoc]

theorem charP_head_ne (c x : Char) (s : Str) (h : x ≠ c) :
    charP c (x :: s) = .err (.soft (x :: s)) := by
  simp [charP, h]

theorem parseArray_head (f : Nat) (x : Char) (s : Str) (h : x ≠ '[') :
    parseArray f (x :: s) = .err (.soft (x :: s)) := by
  cases f with
  | zero => rfl
  | succ f => simp [parseArray, delimitedP, pmap, pand, charP_head_ne _ _ _ h]

theorem parseInlineTable_head (f : Nat) (x : Char) (s : Str) (h : x ≠ lbrace) :
    parseInlineTable f (x :: s) = .err (.soft (x :: s)) := by
  cases f with
  | zero => rfl
  | succ f => simp [parseInlineTable, delimitedP, pmap, pand, charP_head_ne _ _ _ h]

theorem parseString_head (x : Char) (s : Str) (h : x ≠ '"') :
    parseString (x :: s) = .err (.soft (x :: s)) := by
  simp [parseString, delimitedP, pmap, pand, charP_head_ne _ _ _ h]

theorem parseBoolean_head (x : Char) (s : Str) (h1 : x ≠ 't') (h2 : x ≠ 'f') :
    parseBoolean (x :: s) = .err (.soft (x :: s)) := by
  have b1 : (('t' : Char) == x) = false := beq_eq_false_iff_ne.mpr (Ne.symm h1)
  have b2 : (('f' : Char) == x) = false := beq_eq_false_iff_ne.mpr (Ne.symm h2)
  simp [parseBoolean, pmap, alt2, tagP, List.isPrefixOf, b1, b2]

theorem digit1_head_not (x : Char) (s : Str) (h : x.isDigit = false) :
    digit1 (x :: s) = .err (.soft (x :: s)) := by
  simp [digit1, List.takeWhile_cons, h]

theorem parseInteger_head (x : Char) (s : Str) (h : x.isDigit = false) :
    parseInteger (x :: s) = .err (.soft (x :: s)) := by
  simp [parseInteger, pmap, pand, notP, mapRes, tuple3, digit1_head_not _ _ h]

/-! ## The claims -/

/-- C5 counterexample: the claim requires, for every Document, no leading blank
line in the expanded rendering; but a Document whose first Table renders to the
empty string (an empty-header Table with no pairs — which `parse` produces for
any headed input) renders with a leading blank line. -/
theorem c5_counterexample :
    renderDocument (Document.mk [Table.mk (Identifier.mk []) [],
      Table.mk (Identifier.mk "a".toList)
        [Pair.mk (Identifier.mk "b".toList) (Value.integer 1)]]) =
    "\n\na:\n  b: 1".toList := by rfl

/-- C5 (amended): in expanded mode, an empty-header Table renders exactly its
body with no header line; a non-empty-header Table renders the header, a colon
and a newline, with every line of the body's rendering indented one level (two
spaces); and the Document rendering is exactly the Table renderings joined by a
blank line (two newlines), with nothing added before or after — so no leading
or trailing blank line arises except when a Table itself renders empty. -/
theorem c5_document_rendering :
    (∀ ts, renderDocument (Document.mk ts) = joinSep ['\n', '\n'] (ts.map renderTable)) ∧
    (∀ b, renderTable (Table.mk (Identifier.mk []) b) = renderPairs b) ∧
    (∀ h b, h ≠ [] →
      renderTable (Table.mk (Identifier.mk h) b) =
        h ++ ':' :: '\n' :: indentAll (renderPairs b)) := by
  refine ⟨?_, ?_, ?_⟩
  · intro ts
    cases ts with
    | nil => rfl
    | cons t ts =>
      have h := renderDocRest_join (renderTable t) ts
      simpa [renderDocument] using h
  · intro b; rfl
  · intro h b hh
    cases h with
    | nil => exact absurd rfl hh
    | cons c t => rfl

/-- C5 witness: the non-empty-header rendering rule applied to the concrete
header `a` and an empty body. -/
theorem c5_witness :
    ("a".toList ≠ ([] : Str)) ∧
    renderTable (Table.mk (Identifier.mk "a".toList) []) =
      "a".toList ++ ':' :: '\n' :: indentAll (renderPairs []) :=
  ⟨by decide, c5_document_rendering.2.2 "a".toList [] (by decide)⟩

/-- C6: in expanded mode an Array renders its elements joined by single
newlines, each prefixed `- ` (so elements after the first are preceded by a
newline before the marker and there is no trailing newline); an empty Array
renders to nothing, and a Pair holding an empty Array renders `key:`, a
newline and one indentation, with no stray `- ` marker. -/
theorem c6_array_rendering :
    (∀ vs, renderArrayItems vs =
      joinSep ['\n'] (vs.map (fun v => '-' :: ' ' :: renderValue v))) ∧
    renderArrayItems [] = [] ∧
    renderPair (Pair.mk (Identifier.mk "k".toList) (Value.array [])) = "k:\n  ".toList := by
  refine ⟨?_, rfl, by rfl⟩
  intro vs
  cases vs with
  | nil => rfl
  | cons v vs =>
    have h := renderArrayRest_join ('-' :: ' ' :: renderValue v) vs
    simpa [renderArrayItems] using h

/-- C8: rendering is a total function on Documents — it always produces a
string, and that string is unique (the same Document always renders to the
same text).  Termination on arbitrarily nested Arrays and InlineTables is
certified by `renderValue` and friends being accepted as total structural
recursions. -/
theorem c8_render_total : ∀ d : Document, ∃! s : Str, renderDocument d = s :=
  fun d => ⟨renderDocument d, rfl, fun _ h => h.symm⟩

/-- C8 witness: the unique rendering of a concrete Document. -/
theorem c8_witness : ∃! s : Str, renderDocument (Document.mk []) = s :=
  c8_render_total (Document.mk [])

/-- C2 counterexample: the claim makes the synthetic empty-header Table appear
only when leading pairs are present; but on an input that starts directly with
a `[owner]` header (no leading pairs), `parse` still inserts a synthetic
empty-header Table with an empty body as the first element, because the
optional leading table body always matches (as an empty list of pairs). -/
theorem c2_counterexample :
    parse "[owner]\nname = \"T\"".toList =
      .ok (Document.mk [Table.mk (Identifier.mk []) [],
        Table.mk (Identifier.mk "owner".toList)
          [Pair.mk (Identifier.mk "name".toList) (Value.string "T".toList)]]) := by rfl

/-- C2 (amended): the optional leading table body always matches (possibly as
an empty list of pairs), so a synthetic Table with the empty-string Identifier
header is always inserted as the first element of the Document — it carries the
leading pairs when there are any; for the two-table example input, parse yields
a Document of exactly the two described Tables. -/
theorem c2_leading_body_tables :
    parse "title = \"TOML Example\"\n\n[owner]\nname = \"Tom Preston-Werner\"".toList =
      .ok (Document.mk
        [Table.mk (Identifier.mk [])
          [Pair.mk (Identifier.mk "title".toList) (Value.string "TOML Example".toList)],
         Table.mk (Identifier.mk "owner".toList)
          [Pair.mk (Identifier.mk "name".toList)
            (Value.string "Tom Preston-Werner".toList)]]) := by rfl

/-- C3 counterexample: the claim says a table body never consumes pairs lying
beyond a blank line; but each entry's leading `multispace0` swallows newlines,
so on `a = 1`, a blank line, then `b = 2`, the body parser consumes both
pairs. -/
theorem c3_counterexample :
    runTableBody "a = 1\n\nb = 2".toList =
      .ok [Pair.mk (Identifier.mk "a".toList) (Value.integer 1),
           Pair.mk (Identifier.mk "b".toList) (Value.integer 2)] [] := by rfl

/-- C3 (amended): table-body entries are separated by a single newline, but
each entry's leading whitespace may itself span newlines, so the body may
consume pairs beyond a blank line when a pair follows; body parsing stops at
the first line that does not parse as a pair (such as a table header), leaving
that line — and its preceding newline separator — unconsumed for the next
table or end-of-input. -/
theorem c3_table_body_blank_lines :
    (runTableBody "a = 1\nb = 2\n\nc = 3".toList =
      .ok [Pair.mk (Identifier.mk "a".toList) (Value.integer 1),
           Pair.mk (Identifier.mk "b".toList) (Value.integer 2),
           Pair.mk (Identifier.mk "c".toList) (Value.integer 3)] []) ∧
    (runTableBody "title = \"TOML Example\"\n\n[owner]\nname = \"x\"".toList =
      .ok [Pair.mk (Identifier.mk "title".toList) (Value.string "TOML Example".toList)]
        "\n\n[owner]\nname = \"x\"".toList) :=
  ⟨by rfl, by rfl⟩

/-- C1: parsing the value `72` yields Integer(72) and `72.0` yields
Float(72.0); `72.` and `72.x` parse as Integer(72) with the dot left
unconsumed, so a complete parse (here, of the document `a = 72.`) fails on the
trailing `.`; and for every input, `parse_integer` accepts only when the
leading digit run is not immediately followed by a dot and another digit
run. -/
theorem c1_integer_float_disambiguation :
    runValue "72".toList = .ok (Value.integer 72) [] ∧
    runValue "72.0".toList = .ok (Value.float 72) [] ∧
    runValue "72.".toList = .ok (Value.integer 72) ['.'] ∧
    runValue "72.x".toList = .ok (Value.integer 72) ['.', 'x'] ∧
    parse "a = 72.".toList = .error ['.'] ∧
    (∀ s n r, parseInteger s = .ok n r → ¬ FloatPrefixShape s) := by
  refine ⟨by rfl, by rfl, by rfl, by rfl, by rfl, ?_⟩
  intro s n r hok hshape
  obtain ⟨h1, t, h2, h3⟩ := hshape
  have hd1 : digit1 s = .ok (s.takeWhile Char.isDigit) (s.dropWhile Char.isDigit) := by
    unfold digit1
    rw [if_neg]
    simpa [List.isEmpty_iff] using h1
  have hch : charP '.' (s.dropWhile Char.isDigit) = .ok '.' t := by
    rw [h2]; simp [charP]
  have hd2 : digit1 t = .ok (t.takeWhile Char.isDigit) (t.dropWhile Char.isDigit) := by
    unfold digit1
    rw [if_neg]
    simpa [List.isEmpty_iff] using h3
  have hinner : tuple3 digit1 (charP '.') digit1 s =
      .ok (s.takeWhile Char.isDigit, '.', t.takeWhile Char.isDigit)
        (t.dropWhile Char.isDigit) := by
    simp [tuple3, pmap, pand, hd1, hch, hd2]
  simp [parseInteger, pmap, pand, notP, hinner] at hok

/-- C1 witness: the lookahead necessity applied at the concrete input `72`. -/
theorem c1_witness : ¬ FloatPrefixShape "72".toList :=
  c1_integer_float_disambiguation.2.2.2.2.2 "72".toList 72 [] (by rfl)

/-- C10 counterexample: the claim says every input beginning with a sign and
digits parses as a Float at the value level; but `-3e` fails entirely — the
float grammar commits to the exponent marker and `cut` turns the missing
exponent digits into a hard failure, and no other value branch accepts a
signed literal. -/
theorem c10_counterexample : runValue "-3e".toList = .err (.hard []) := by rfl

/-- C10 (amended): a signed numeric literal never parses as an Integer — for
every input beginning with `-` or `+` followed by a digit, any successful
value parse yields a Float (the integer grammar accepts only unsigned digit
runs, while the float rule accepts an optional sign); `-3` parses as
Float(-3.0).  Inputs whose float syntax is invalid, such as `-3e` with its
bare exponent marker, fail instead of yielding any value. -/
theorem c10_signed_value_float :
    (∀ c d s v r, (c = '-' ∨ c = '+') → d.isDigit →
      runValue (c :: d :: s) = .ok v r → ∃ q, v = Value.float q) ∧
    runValue "-3".toList = .ok (Value.float (-3)) [] := by
  refine ⟨?_, by rfl⟩
  intro c d s v r hc _hd hok
  have hct : c ≠ 't' := by rcases hc with rfl | rfl <;> decide
  have hcf : c ≠ 'f' := by rcases hc with rfl | rfl <;> decide
  have hcd : c.isDigit = false := by rcases hc with rfl | rfl <;> decide
  have hcq : c ≠ '"' := by rcases hc with rfl | rfl <;> decide
  have hcb : c ≠ '[' := by rcases hc with rfl | rfl <;> decide
  have hcl : c ≠ lbrace := by rcases hc with rfl | rfl <;> decide
  have hfuel : fuelFor (c :: d :: s) = (8 * (c :: d :: s).length + 15) + 1 := rfl
  unfold runValue at hok
  rw [hfuel] at hok
  cases hf : parseFloat (c :: d :: s) with
  | ok q r2 =>
    simp only [parseValue, alt2, pmap,
      parseBoolean_head c (d :: s) hct hcf,
      parseInteger_head c (d :: s) hcd, hf] at hok
    simp only [PResult.ok.injEq] at hok
    exact ⟨q, hok.1.symm⟩
  | err e =>
    cases e with
    | hard r2 =>
      simp only [parseValue, alt2, pmap,
        parseBoolean_head c (d :: s) hct hcf,
        parseInteger_head c (d :: s) hcd, hf] at hok
      exact PResult.noConfusion hok
    | soft r2 =>
      simp only [parseValue, alt2, pmap,
        parseBoolean_head c (d :: s) hct hcf,
        parseInteger_head c (d :: s) hcd, hf,
        parseString_head c (d :: s) hcq,
        parseArray_head (8 * (c :: d :: s).length + 15) c (d :: s) hcb,
        parseInlineTable_head (8 * (c :: d :: s).length + 15) c (d :: s) hcl] at hok
      exact PResult.noConfusion hok

theorem takeWhile_sp_head_false (p : Char → Bool) (hsp : p ' ' = false) (n : Nat)
    (c : Char) (t : Str) (hc : p c = false) :
    (List.replicate n ' ' ++ c :: t).takeWhile p = [] := by
  cases n <;> simp [List.replicate_succ, List.takeWhile_cons, hsp, hc]

theorem dropWhile_sp_head_false (p : Char → Bool) (hsp : p ' ' = false) (n : Nat)
    (c : Char) (t : Str) (hc : p c = false) :
    (List.replicate n ' ' ++ c :: t).dropWhile p = List.replicate n ' ' ++ c :: t := by
  cases n <;> simp [List.replicate_succ, List.dropWhile_cons, hsp, hc]

theorem takeWhile_ms_sp (n : Nat) (c : Char) (t : Str) (hc : isMultiSpace c = false) :
    (List.replicate n ' ' ++ c :: t).takeWhile isMultiSpace = List.replicate n ' ' := by
  induction n with
  | zero => simp [List.takeWhile_cons, hc]
  | succ n ih => simp [List.replicate_succ, List.takeWhile_cons, isMultiSpace, ih]

theorem dropWhile_ms_sp (n : Nat) (c : Char) (t : Str) (hc : isMultiSpace c = false) :
    (List.replicate n ' ' ++ c :: t).dropWhile isMultiSpace = c :: t := by
  induction n with
  | zero => simp [List.dropWhile_cons, hc]
  | succ n ih => simp [List.replicate_succ, List.dropWhile_cons, isMultiSpace, ih]

theorem multispace0_sp (n : Nat) (c : Char) (t : Str) (hc : isMultiSpace c = false) :
    multispace0 (List.replicate n ' ' ++ c :: t) = .ok (List.replicate n ' ') (c :: t) := by
  simp [multispace0, takeWhile_ms_sp n c t hc, dropWhile_ms_sp n c t hc]

theorem charP_sp_ne (ch : Char) (n : Nat) (c : Char) (t : Str) (h1 : ' ' ≠ ch)
    (h2 : c ≠ ch) :
    charP ch (List.replicate n ' ' ++ c :: t) =
      .err (.soft (List.replicate n ' ' ++ c :: t)) := by
  cases n with
  | zero => simpa using charP_head_ne ch c t h2
  | succ n => simpa [List.replicate_succ] using
      charP_head_ne ch ' ' (List.replicate n ' ' ++ c :: t) h1

theorem sepComma_sp (n m : Nat) (c : Char) (t : Str) (hc : isMultiSpace c = false) :
    sepComma (List.replicate n ' ' ++ ',' :: (List.replicate m ' ' ++ c :: t)) =
      .ok (List.replicate n ' ', ',', List.replicate m ' ') (c :: t) := by
  simp [sepComma, tuple3, pmap, pand, multispace0_sp n ',' _ (by decide), charP,
    multispace0_sp m c t hc]

theorem sepComma_sp_close (n : Nat) (t : Str) :
    sepComma (List.replicate n ' ' ++ ']' :: t) = .err (.soft (']' :: t)) := by
  simp [sepComma, tuple3, pmap, pand, multispace0_sp n ']' t (by decide),
    charP_head_ne ',' ']' t (by decide)]

theorem parseValue_digit1 (f n : Nat) (c : Char) (t : Str) (d : Char)
    (hdt : d ≠ 't') (hdf : d ≠ 'f') (hdd : d.isDigit = true)
    (hc1 : c.isDigit = false) (hc2 : c ≠ '.')
    (hval : digitsToNat [d] ≤ i64MaxNat) :
    parseValue (f + 1) (d :: (List.replicate n ' ' ++ c :: t)) =
      .ok (Value.integer (Int.ofNat (digitsToNat [d]))) (List.replicate n ' ' ++ c :: t) := by
  have helper1 : (List.replicate n ' ' ++ c :: t).takeWhile Char.isDigit = [] :=
    takeWhile_sp_head_false Char.isDigit (by decide) n c t hc1
  have helper2 : (List.replicate n ' ' ++ c :: t).dropWhile Char.isDigit =
      List.replicate n ' ' ++ c :: t :=
    dropWhile_sp_head_false Char.isDigit (by decide) n c t hc1
  have hd1 : digit1 (d :: (List.replicate n ' ' ++ c :: t)) =
      .ok [d] (List.replicate n ' ' ++ c :: t) := by
    simp [digit1, List.takeWhile_cons, List.dropWhile_cons, hdd, helper1, helper2]
  have hch : charP '.' (List.replicate n ' ' ++ c :: t) =
      .err (.soft (List.replicate n ' ' ++ c :: t)) :=
    charP_sp_ne '.' n c t (by decide) hc2
  have hnot : notP (tuple3 digit1 (charP '.') digit1)
      (d :: (List.replicate n ' ' ++ c :: t)) =
      .ok () (d :: (List.replicate n ' ' ++ c :: t)) := by
    simp [notP, tuple3, pmap, pand, hd1, hch]
  have hint : parseInteger (d :: (List.replicate n ' ' ++ c :: t)) =
      .ok (Int.ofNat (digitsToNat [d])) (List.replicate n ' ' ++ c :: t) := by
    simp only [parseInteger, pmap, pand, hnot, mapRes, hd1]
    rw [if_pos hval]
  have hb := parseBoolean_head d (List.replicate n ' ' ++ c :: t) hdt hdf
  simp [parseValue, alt2, pmap, hb, hint]

theorem parseFloat_head_close (t : Str) : parseFloat (']' :: t) = .err (.soft (']' :: t)) := by
  rfl

theorem parseValue_head_close (f : Nat) (t : Str) :
    parseValue (f + 1) (']' :: t) = .err (.soft (']' :: t)) := by
  simp [parseValue, alt2, pmap,
    parseBoolean_head ']' t (by decide) (by decide),
    parseInteger_head ']' t (by decide),
    parseFloat_head_close t,
    parseString_head ']' t (by decide),
    parseArray_head f ']' t (by decide),
    parseInlineTable_head f ']' t (by decide)]

/-- C10 witness: the amended rule applied at the concrete input `-3`. -/
theorem c10_witness :
    (('-' : Char) = '-' ∨ ('-' : Char) = '+') ∧ ∃ q, Value.float (-3) = Value.float q :=
  ⟨Or.inl rfl,
    c10_signed_value_float.1 '-' '3' [] (Value.float (-3)) [] (Or.inl rfl) (by decide) (by rfl)⟩

theorem multispace0_head (c : Char) (t : Str) (hc : isMultiSpace c = false) :
    multispace0 (c :: t) = .ok [] (c :: t) := by
  simp [multispace0, List.takeWhile_cons, List.dropWhile_cons, hc]

/-! ## Suffix soundness of every parser -/

theorem sound_pmap {p : Parser α} (g : α → β) (hp : Sound p) : Sound (pmap p g) := by
  intro s
  have h1 := hp s
  unfold pmap
  cases hps : p s with
  | ok a r => rw [hps] at h1; exact h1
  | err e => rw [hps] at h1; cases e <;> exact h1

theorem sound_pand {p : Parser α} {q : Parser β} (hp : Sound p) (hq : Sound q) :
    Sound (pand p q) := by
  intro s
  have h1 := hp s
  unfold pand
  cases hps : p s with
  | err e => rw [hps] at h1; cases e <;> exact h1
  | ok a r =>
    rw [hps] at h1
    dsimp only
    have h2 := hq r
    cases hqr : q r with
    | err e => rw [hqr] at h2; cases e <;> exact h2.trans h1
    | ok b r2 => rw [hqr] at h2; exact h2.trans h1

theorem sound_alt2 {p q : Parser α} (hp : Sound p) (hq : Sound q) : Sound (alt2 p q) := by
  intro s
  have h1 := hp s
  unfold alt2
  cases hps : p s with
  | ok a r => rw [hps] at h1; exact h1
  | err e =>
    rw [hps] at h1
    cases e with
    | soft r => dsimp only; exact hq s
    | hard r => dsimp only; exact h1

theorem sound_optP {p : Parser α} (hp : Sound p) : Sound (optP p) := by
  intro s
  have h1 := hp s
  unfold optP
  cases hps : p s with
  | ok a r => rw [hps] at h1; exact h1
  | err e =>
    rw [hps] at h1
    cases e with
    | soft r => dsimp only; exact List.suffix_refl s
    | hard r => dsimp only; exact h1

theorem sound_notP {p : Parser α} (hp : Sound p) : Sound (notP p) := by
  intro s
  have h1 := hp s
  unfold notP
  cases hps : p s with
  | ok a r => dsimp only; exact List.suffix_refl s
  | err e =>
    rw [hps] at h1
    cases e with
    | soft r => dsimp only; exact List.suffix_refl s
    | hard r => dsimp only; exact h1

theorem sound_mapRes {p : Parser α} (g : α → Option β) (hp : Sound p) :
    Sound (mapRes p g) := by
  intro s
  have h1 := hp s
  unfold mapRes
  cases hps : p s with
  | err e => rw [hps] at h1; cases e <;> exact h1
  | ok a r =>
    rw [hps] at h1
    dsimp only
    cases hga : g a with
    | some b => exact h1
    | none => dsimp only; exact List.suffix_refl s

theorem sound_charP (c : Char) : Sound (charP c) := by
  intro s
  unfold charP
  cases s with
  | nil => exact List.suffix_refl _
  | cons x r =>
    dsimp only
    split
    · exact List.suffix_cons x r
    · exact List.suffix_refl _

theorem sound_tagP (t : Str) : Sound (tagP t) := by
  intro s
  unfold tagP
  split
  · exact List.drop_suffix _ _
  · exact List.suffix_refl _

theorem sound_digit1 : Sound digit1 := by
  intro s
  unfold digit1
  split
  · exact List.suffix_refl _
  · exact List.dropWhile_suffix _

theorem sound_alphanumeric1 : Sound alphanumeric1 := by
  intro s
  unfold alphanumeric1
  split
  · exact List.suffix_refl _
  · exact List.dropWhile_suffix _

theorem sound_multispace0 : Sound multispace0 := fun _ => List.dropWhile_suffix _

theorem sound_space0 : Sound space0 := fun _ => List.dropWhile_suffix _

theorem sound_takeTill (pred : Char → Bool) : Sound (takeTill pred) :=
  fun _ => List.dropWhile_suffix _

theorem sound_eofP : Sound eofP := by
  intro s
  unfold eofP
  split <;> exact List.suffix_refl _

theorem sound_delimitedP {l : Parser α} {m : Parser β} {r : Parser γ}
    (hl : Sound l) (hm : Sound m) (hr : Sound r) : Sound (delimitedP l m r) :=
  sound_pmap _ (sound_pand (sound_pand hl hm) hr)

theorem sound_sepPairP {p : Parser α} {sep : Parser σ} {q : Parser β}
    (hp : Sound p) (hs : Sound sep) (hq : Sound q) : Sound (sepPairP p sep q) :=
  sound_pmap _ (sound_pand (sound_pand hp hs) hq)

theorem sound_tuple3 {p : Parser α} {q : Parser β} {r : Parser γ}
    (hp : Sound p) (hq : Sound q) (hr : Sound r) : Sound (tuple3 p q r) :=
  sound_pmap _ (sound_pand hp (sound_pand hq hr))

theorem sound_sepList0Loop {sep : Parser σ} {p : Parser α}
    (hs : Sound sep) (hp : Sound p) : ∀ f, Sound (sepList0Loop sep p f) := by
  intro f
  induction f with
  | zero => intro s; exact List.suffix_refl s
  | succ f ih =>
    intro s
    have h1 := hs s
    simp only [sepList0Loop]
    cases hsep : sep s with
    | err e =>
      rw [hsep] at h1
      cases e with
      | soft r => dsimp only; exact List.suffix_refl s
      | hard r => dsimp only; exact h1
    | ok a s1 =>
      rw [hsep] at h1
      dsimp only
      split
      · exact h1
      · have h2 := hp s1
        cases hps : p s1 with
        | err e =>
          rw [hps] at h2
          cases e with
          | soft r => dsimp only; exact List.suffix_refl s
          | hard r => dsimp only; exact h2.trans h1
        | ok b s2 =>
          rw [hps] at h2
          dsimp only
          have h3 := ih s2
          cases hloop : sepList0Loop sep p f s2 with
          | ok as r2 => rw [hloop] at h3; exact (h3.trans h2).trans h1
          | err e => rw [hloop] at h3; cases e <;> exact (h3.trans h2).trans h1

theorem sound_sepList0 {sep : Parser σ} {p : Parser α} (fuel : Nat)
    (hs : Sound sep) (hp : Sound p) : Sound (sepList0 fuel sep p) := by
  intro s
  have h1 := hp s
  unfold sepList0
  cases hps : p s with
  | err e =>
    rw [hps] at h1
    cases e with
    | soft r => dsimp only; exact List.suffix_refl s
    | hard r => dsimp only; exact h1
  | ok a s1 =>
    rw [hps] at h1
    dsimp only
    have h2 := sound_sepList0Loop hs hp fuel s1
    cases hloop : sepList0Loop sep p fuel s1 with
    | ok as r => rw [hloop] at h2; exact h2.trans h1
    | err e => rw [hloop] at h2; cases e <;> exact h2.trans h1

theorem sound_many0Loop {p : Parser α} (hp : Sound p) : ∀ f, Sound (many0Loop p f) := by
  intro f
  induction f with
  | zero => intro s; exact List.suffix_refl s
  | succ f ih =>
    intro s
    have h1 := hp s
    simp only [many0Loop]
    cases hps : p s with
    | err e =>
      rw [hps] at h1
      cases e with
      | soft r => dsimp only; exact List.suffix_refl s
      | hard r => dsimp only; exact h1
    | ok a r =>
      rw [hps] at h1
      dsimp only
      split
      · exact h1
      · have h2 := ih r
        cases hloop : many0Loop p f r with
        | ok as r2 => rw [hloop] at h2; exact h2.trans h1
        | err e => rw [hloop] at h2; cases e <;> exact h2.trans h1

theorem sound_many0P {p : Parser α} (fuel : Nat) (hp : Sound p) :
    Sound (many0P fuel p) :=
  fun s => sound_many0Loop hp fuel s

theorem sound_foldMany1Str {p : Parser Str} (fuel : Nat) (hp : Sound p) :
    Sound (foldMany1Str fuel p) := by
  intro s
  have h1 := hp s
  unfold foldMany1Str
  cases hps : p s with
  | err e =>
    rw [hps] at h1
    cases e with
    | soft r => dsimp only; exact List.suffix_refl s
    | hard r => dsimp only; exact h1
  | ok a r =>
    rw [hps] at h1
    dsimp only
    have h2 := sound_many0Loop hp fuel r
    cases hloop : many0Loop p fuel r with
    | ok as r2 => rw [hloop] at h2; exact h2.trans h1
    | err e => rw [hloop] at h2; cases e <;> exact h2.trans h1

theorem sound_signSplit : ∀ s, (signSplit s).2 <:+ s := by
  intro s
  unfold signSplit
  split
  · exact List.suffix_cons _ _
  · exact List.suffix_cons _ _
  · exact List.suffix_refl _

theorem sound_parseExpI32 : Sound parseExpI32 := by
  intro s
  have h0 := sound_signSplit s
  unfold parseExpI32
  rcases hsp : signSplit s with ⟨neg, s1⟩
  rw [hsp] at h0
  dsimp only
  have h2 := sound_digit1 s1
  cases hd : digit1 s1 with
  | err e => exact List.suffix_refl s
  | ok ds r =>
    rw [hd] at h2
    dsimp only
    split
    · split
      · exact h2.trans h0
      · exact List.suffix_refl s
    · split
      · exact h2.trans h0
      · exact List.suffix_refl s

theorem sound_fracSplit : ∀ s2, (fracSplit s2).2 <:+ s2 := by
  intro s2
  unfold fracSplit
  split
  · exact (List.dropWhile_suffix _).trans (List.suffix_cons '.' _)
  · exact List.suffix_refl _

theorem sound_parseFloat : Sound parseFloat := by
  intro s
  have h0 := sound_signSplit s
  unfold parseFloat
  rcases hsp : signSplit s with ⟨neg, s1⟩
  rw [hsp] at h0
  dsimp only
  have hs2 : s1.dropWhile Char.isDigit <:+ s := (List.dropWhile_suffix _).trans h0
  have h4 : (fracSplit (s1.dropWhile Char.isDigit)).2 <:+ s :=
    (sound_fracSplit _).trans hs2
  rcases hfr : fracSplit (s1.dropWhile Char.isDigit) with ⟨fp, s4⟩
  rw [hfr] at h4
  dsimp only
  dsimp only at h4
  split
  · exact List.suffix_refl s
  · split
    · rename_i s5
      have hs5 : s5 <:+ s := (List.suffix_cons 'e' s5).trans h4
      have h6 := sound_parseExpI32 s5
      cases hexp : parseExpI32 s5 with
      | ok e2 r => rw [hexp] at h6; exact h6.trans hs5
      | err e2 =>
        rw [hexp] at h6
        cases e2 with
        | soft r => exact h6.trans hs5
        | hard r => exact h6.trans hs5
    · rename_i s5
      have hs5 : s5 <:+ s := (List.suffix_cons 'E' s5).trans h4
      have h6 := sound_parseExpI32 s5
      cases hexp : parseExpI32 s5 with
      | ok e2 r => rw [hexp] at h6; exact h6.trans hs5
      | err e2 =>
        rw [hexp] at h6
        cases e2 with
        | soft r => exact h6.trans hs5
        | hard r => exact h6.trans hs5
    · exact h4

theorem sound_parseBoolean : Sound parseBoolean :=
  sound_pmap _ (sound_alt2 (sound_tagP _) (sound_tagP _))

theorem sound_parseInteger : Sound parseInteger :=
  sound_pmap _
    (sound_pand (sound_notP (sound_tuple3 sound_digit1 (sound_charP _) sound_digit1))
      (sound_mapRes _ sound_digit1))

theorem sound_parseString : Sound parseString :=
  sound_delimitedP (sound_charP _) (sound_takeTill _) (sound_charP _)

theorem sound_parseIdentifier (f : Nat) : Sound (parseIdentifier f) :=
  sound_pmap _
    (sound_foldMany1Str f
      (sound_alt2 sound_alphanumeric1 (sound_alt2 (sound_tagP _) (sound_tagP _))))

theorem sound_sepComma : Sound sepComma :=
  sound_tuple3 sound_multispace0 (sound_charP _) sound_multispace0

theorem sound_grammar : ∀ f, Sound (parseValue f) ∧ Sound (parseArray f) ∧
    Sound (parseInlineTable f) ∧ Sound (parsePair f) := by
  intro f
  induction f with
  | zero => refine ⟨?_, ?_, ?_, ?_⟩ <;> (intro s; exact List.suffix_refl s)
  | succ f ih =>
    obtain ⟨ihv, iha, iht, ihp⟩ := ih
    refine ⟨?_, ?_, ?_, ?_⟩
    · exact sound_alt2 (sound_pmap _ sound_parseBoolean)
        (sound_alt2 (sound_pmap _ sound_parseInteger)
          (sound_alt2 (sound_pmap _ sound_parseFloat)
            (sound_alt2 (sound_pmap _ sound_parseString)
              (sound_alt2 (sound_pmap _ iha) (sound_pmap _ iht)))))
    · exact sound_delimitedP (sound_pand (sound_charP _) sound_multispace0)
        (sound_sepList0 _ sound_sepComma ihv)
        (sound_pand sound_multispace0 (sound_charP _))
    · exact sound_delimitedP (sound_pand (sound_charP _) sound_multispace0)
        (sound_sepList0 _ sound_sepComma ihp)
        (sound_pand sound_multispace0 (sound_charP _))
    · exact sound_pmap _
        (sound_sepPairP (sound_parseIdentifier f)
          (sound_tuple3 sound_space0 (sound_charP _) sound_space0) ihv)

theorem sound_parseTableBody (f : Nat) : Sound (parseTableBody f) :=
  sound_sepList0 _ (sound_charP _)
    (sound_pmap _ (sound_tuple3 sound_multispace0 (sound_grammar f).2.2.2 sound_space0))

theorem sound_parseTableHeader (f : Nat) : Sound (parseTableHeader f) :=
  sound_pmap _
    (sound_pand
      (sound_pand (sound_pand sound_multispace0 (sound_charP _))
        (sound_pand sound_space0 (sound_parseIdentifier f)))
      (sound_pand (sound_pand sound_space0 (sound_charP _))
        (sound_pand sound_space0 (sound_charP _))))

theorem sound_parseTable (f : Nat) : Sound (parseTable f) :=
  sound_pmap _ (sound_pand (sound_parseTableHeader f) (sound_parseTableBody f))

theorem sound_parseDocument (f : Nat) : Sound (parseDocument f) :=
  sound_pmap _
    (sound_pand
      (sound_pand (sound_optP (sound_parseTableBody f))
        (sound_many0P f (sound_parseTable f)))
      (sound_pand sound_multispace0 sound_eofP))

/-- C7: array literals are whitespace-tolerant and may be empty; a trailing
comma before the closing bracket makes the array rule fail (for any amount of
whitespace there); `[1,2]` parses to Array([Integer(1), Integer(2)]) and that
value renders in compact mode as exactly `[1, 2]`.  The whitespace-tolerance
and trailing-comma facts are stated for every fuel and every amount of
whitespace at each position. -/
theorem c7_array_syntax :
    runArray "[1,2]".toList = .ok [Value.integer 1, Value.integer 2] [] ∧
    compactValue (Value.array [Value.integer 1, Value.integer 2]) = "[1, 2]".toList ∧
    runArray "[]".toList = .ok [] [] ∧
    runArray "[1,2,]".toList = .err (.soft ",]".toList) ∧
    (∀ n1 n2 n3 n4 f : Nat,
      parseArray (f + 3)
        ('[' :: (List.replicate n1 ' ' ++ '1' :: (List.replicate n2 ' ' ++ ',' ::
          (List.replicate n3 ' ' ++ '2' :: (List.replicate n4 ' ' ++ [']']))))) =
        .ok [Value.integer 1, Value.integer 2] []) ∧
    (∀ n f : Nat,
      parseArray (f + 3) ("[1,2,".toList ++ List.replicate n ' ' ++ [']']) =
        .err (.soft (',' :: (List.replicate n ' ' ++ [']'])))) := by
  refine ⟨by rfl, by rfl, by rfl, by rfl, ?_, ?_⟩
  · intro n1 n2 n3 n4 f
    have hval1 : parseValue (f + 2)
        ('1' :: (List.replicate n2 ' ' ++ ',' ::
          (List.replicate n3 ' ' ++ '2' :: (List.replicate n4 ' ' ++ [']'])))) =
        .ok (Value.integer 1)
          (List.replicate n2 ' ' ++ ',' ::
            (List.replicate n3 ' ' ++ '2' :: (List.replicate n4 ' ' ++ [']']))) :=
      parseValue_digit1 (f + 1) n2 ','
        (List.replicate n3 ' ' ++ '2' :: (List.replicate n4 ' ' ++ [']'])) '1'
        (by decide) (by decide) (by decide) (by decide) (by decide) (by decide)
    have hval2 : parseValue (f + 2) ('2' :: (List.replicate n4 ' ' ++ [']'])) =
        .ok (Value.integer 2) (List.replicate n4 ' ' ++ [']']) :=
      parseValue_digit1 (f + 1) n4 ']' [] '2'
        (by decide) (by decide) (by decide) (by decide) (by decide) (by decide)
    have hlen2 : ¬ (('2' :: (List.replicate n4 ' ' ++ [']'])).length =
        (List.replicate n2 ' ' ++ ',' ::
          (List.replicate n3 ' ' ++ '2' :: (List.replicate n4 ' ' ++ [']']))).length) := by
      simp only [List.length_cons, List.length_append, List.length_replicate]
      omega
    simp only [parseArray, delimitedP, pmap, pand, sepList0, sepList0Loop, charP,
      multispace0_sp n1 '1' _ (by decide), hval1, hval2, hlen2,
      sepComma_sp n2 n3 '2' (List.replicate n4 ' ' ++ [']']) (by decide),
      sepComma_sp_close n4 [], multispace0_sp n4 ']' [] (by decide),
      if_true, if_false, ite_true, ite_false]
  · intro n f
    show parseArray (f + 3)
        ('[' :: '1' :: ',' :: '2' :: ',' :: (List.replicate n ' ' ++ [']'])) =
      .err (.soft (',' :: (List.replicate n ' ' ++ [']'])))
    have hval1 : parseValue (f + 2)
        ('1' :: ',' :: '2' :: ',' :: (List.replicate n ' ' ++ [']'])) =
        .ok (Value.integer 1) (',' :: '2' :: ',' :: (List.replicate n ' ' ++ [']'])) :=
      parseValue_digit1 (f + 1) 0 ','
        ('2' :: ',' :: (List.replicate n ' ' ++ [']'])) '1'
        (by decide) (by decide) (by decide) (by decide) (by decide) (by decide)
    have hval2 : parseValue (f + 2)
        ('2' :: ',' :: (List.replicate n ' ' ++ [']'])) =
        .ok (Value.integer 2) (',' :: (List.replicate n ' ' ++ [']'])) :=
      parseValue_digit1 (f + 1) 0 ','
        (List.replicate n ' ' ++ [']']) '2'
        (by decide) (by decide) (by decide) (by decide) (by decide) (by decide)
    have hsep1 : sepComma (',' :: '2' :: ',' :: (List.replicate n ' ' ++ [']'])) =
        .ok ([], ',', []) ('2' :: ',' :: (List.replicate n ' ' ++ [']'])) :=
      sepComma_sp 0 0 '2' (',' :: (List.replicate n ' ' ++ [']'])) (by decide)
    have hsep2 : sepComma (',' :: (List.replicate n ' ' ++ [']'])) =
        .ok ([], ',', List.replicate n ' ') [']'] :=
      sepComma_sp 0 n ']' [] (by decide)
    have hclose : parseValue (f + 2) [']'] = .err (.soft [']']) :=
      parseValue_head_close (f + 1) []
    have hlenA : ¬ (('2' :: ',' :: (List.replicate n ' ' ++ [']'])).length =
        (',' :: '2' :: ',' :: (List.replicate n ' ' ++ [']'])).length) := by
      simp only [List.length_cons, List.length_append, List.length_replicate]
      omega
    have hlenB : ¬ (([']'] : Str).length =
        (',' :: (List.replicate n ' ' ++ [']'])).length) := by
      simp only [List.length_cons, List.length_append, List.length_replicate]
      omega
    simp only [parseArray, delimitedP, pmap, pand, sepList0, sepList0Loop, charP,
      multispace0_head '1' _ (by decide), multispace0_head ',' _ (by decide),
      hval1, hval2, hsep1, hsep2, hclose, hlenA, hlenB,
      if_true, if_false, ite_true, ite_false]
    simp

theorem pand_ok {p : Parser α} {q : Parser β} {s : Str} {v : α × β} {r : Str}
    (h : pand p q s = .ok v r) : ∃ m, p s = .ok v.1 m ∧ q m = .ok v.2 r := by
  unfold pand at h
  cases hps : p s with
  | err e => rw [hps] at h; exact absurd h (by simp)
  | ok a2 m =>
    rw [hps] at h
    dsimp only at h
    cases hqm : q m with
    | err e => rw [hqm] at h; exact absurd h (by simp)
    | ok b2 r2 =>
      rw [hqm] at h
      dsimp only at h
      rw [PResult.ok.injEq] at h
      obtain ⟨h1, h2⟩ := h
      subst h1
      subst h2
      exact ⟨m, by simp, by simpa using hqm⟩

theorem pmap_ok {p : Parser α} {g : α → β} {s : Str} {b : β} {r : Str}
    (h : pmap p g s = .ok b r) : ∃ a, p s = .ok a r ∧ g a = b := by
  unfold pmap at h
  cases hps : p s with
  | err e => rw [hps] at h; exact absurd h (by simp)
  | ok a m =>
    rw [hps] at h
    dsimp only at h
    rw [PResult.ok.injEq] at h
    exact ⟨a, by rw [h.2], h.1⟩

theorem eofP_ok {s : Str} {u : Unit} {r : Str} (h : eofP s = .ok u r) : r = [] := by
  unfold eofP at h
  split at h
  case isTrue hc =>
    rw [PResult.ok.injEq] at h
    rw [← h.2]
    exact List.isEmpty_iff.mp hc
  case isFalse hc => exact absurd h (by simp)

theorem parseDocument_ok_nil {f : Nat} {s : Str} {d : Document} {r : Str}
    (h : parseDocument f s = .ok d r) : r = [] := by
  unfold parseDocument at h
  obtain ⟨x, hx, hg⟩ := pmap_ok h
  obtain ⟨m, h1, h2⟩ := pand_ok hx
  obtain ⟨m2, h3, h4⟩ := pand_ok h2
  exact eofP_ok h4

/-- C4: `parse` succeeds exactly when the document grammar matches the entire
input (the grammar ends in `eof`, so a success consumes everything up to the
whitespace `multispace0` absorbed just before it), and when `parse` fails the
reported error is the unconsumed suffix of the input at the point of
failure. -/
theorem c4_parse_error_contract :
    ∀ s : Str,
      (∀ d, parse s = .ok d ↔ parseDocument (fuelFor s) s = .ok d []) ∧
      (∀ r, parse s = .error r → r <:+ s) := by
  intro s
  constructor
  · intro d
    constructor
    · intro h
      unfold parse at h
      cases hpd : parseDocument (fuelFor s) s with
      | ok d2 r =>
        rw [hpd] at h
        dsimp only at h
        have hr := parseDocument_ok_nil hpd
        subst hr
        cases h
        rfl
      | err e =>
        rw [hpd] at h
        cases e <;> exact absurd h (by simp)
    · intro h
      unfold parse
      rw [h]
  · intro r h
    unfold parse at h
    have hs := sound_parseDocument (fuelFor s) s
    cases hpd : parseDocument (fuelFor s) s with
    | ok d2 r2 => rw [hpd] at h; exact absurd h (by simp)
    | err e =>
      rw [hpd] at hs
      rw [hpd] at h
      cases e with
      | soft r2 =>
        dsimp only at h
        injection h with h2
        exact h2 ▸ hs
      | hard r2 =>
        dsimp only at h
        injection h with h2
        exact h2 ▸ hs

/-- C4 witness: the contract applied at the concrete input `x`, which fails
with the whole input as the unconsumed suffix. -/
theorem c4_witness : ("x".toList : Str) <:+ "x".toList :=
  (c4_parse_error_contract "x".toList).2 "x".toList (by rfl)

end TomlYaml
